import Mathlib

/-!
Verification of the Link-Hunter backend request handler
(`src/routes/api.js` and `src/server.js`).

The handler validates a request body, spawns a child process, accumulates
its stdout/stderr streams, and on the close event reconciles the exit code
and buffers into an HTTP response.  JavaScript JSON values are embedded as
the inductive type `Json` (numbers modelled as integers); `JSON.parse` and
the serialization format produced by the script are modelled as executable
functions over character lists.
-/

set_option maxHeartbeats 1000000

/-- A JavaScript JSON value.  Numbers are modelled as integers; objects are
ordered association lists, which preserves the passthrough semantics of
`res.json`. -/
inductive Json where
  | null : Json
  | bool (b : Bool) : Json
  | num (n : Int) : Json
  | str (s : String) : Json
  | arr (elems : List Json) : Json
  | obj (fields : List (String × Json)) : Json

/-- JavaScript truthiness of a JSON value: `null`, `false`, `0` and the
empty string are falsy; arrays and objects are always truthy. -/
def jsTruthy : Json → Bool
  | Json.null => false
  | Json.bool b => b
  | Json.num n => n != 0
  | Json.str s => s != ""
  | Json.arr _ => true
  | Json.obj _ => true

/-- The decimal digit character for `d < 10`. -/
def digitChar (d : Nat) : Char := Char.ofNat (48 + d)

/-- Decimal digit characters of a natural number, most significant first. -/
def natChars (n : Nat) : List Char :=
  if hlt : n < 10 then [digitChar n]
  else
    have : n / 10 < n := Nat.div_lt_self (by omega) (by omega)
    natChars (n / 10) ++ [digitChar (n % 10)]

/-- Decimal representation of an integer, as emitted by `JSON.stringify`
for integral numbers. -/
def intChars (n : Int) : List Char :=
  if n < 0 then '-' :: natChars n.natAbs else natChars n.toNat

/-- Escape one character for use inside a JSON string literal.  The
serializer escapes the quote and the backslash; all other characters are
emitted literally. -/
def escChar (c : Char) : List Char :=
  if c = '"' then ['\\', '"']
  else if c = '\\' then ['\\', '\\']
  else [c]

/-- Escape a character sequence for a JSON string literal body. -/
def escapeChars (cs : List Char) : List Char := cs.flatMap escChar

/-- Opening brace character of a JSON object. -/
def lbrace : Char := Char.ofNat 123

/-- Closing brace character of a JSON object. -/
def rbrace : Char := Char.ofNat 125

mutual

/-- Serialization of a JSON value to characters: the canonical compact
form emitted by `JSON.stringify` (no whitespace). -/
def serializeChars : Json → List Char
  | Json.null => ['n', 'u', 'l', 'l']
  | Json.bool true => ['t', 'r', 'u', 'e']
  | Json.bool false => ['f', 'a', 'l', 's', 'e']
  | Json.num n => intChars n
  | Json.str s => '"' :: (escapeChars s.data ++ ['"'])
  | Json.arr xs => '[' :: (serializeItems xs ++ [']'])
  | Json.obj fs => lbrace :: (serializeFields fs ++ [rbrace])

/-- Comma-separated serialization of array elements. -/
def serializeItems : List Json → List Char
  | [] => []
  | [x] => serializeChars x
  | x :: y :: xs => serializeChars x ++ ',' :: serializeItems (y :: xs)

/-- Comma-separated serialization of object fields (`"key":value`). -/
def serializeFields : List (String × Json) → List Char
  | [] => []
  | [(k, v)] => '"' :: (escapeChars k.data ++ '"' :: ':' :: serializeChars v)
  | (k, v) :: f :: fs =>
      ('"' :: (escapeChars k.data ++ '"' :: ':' :: serializeChars v)) ++
        ',' :: serializeFields (f :: fs)

end

/-- `JSON.stringify` on the model: the string form of a JSON value. -/
def stringify (v : Json) : String := String.mk (serializeChars v)

/-- JSON insignificant whitespace characters. -/
def isWsChar (c : Char) : Bool :=
  c = ' ' || c = '\n' || c = '\t' || c = '\r'

/-- Drop leading JSON whitespace. -/
def skipWs : List Char → List Char
  | [] => []
  | c :: cs => if isWsChar c then skipWs cs else c :: cs

/-- Is `c` a decimal digit? -/
def isDigitChar (c : Char) : Bool := 48 ≤ c.toNat && c.toNat ≤ 57

/-- Numeric value of a digit character. -/
def digitVal (c : Char) : Nat := c.toNat - 48

/-- Consume leading decimal digits, extending the accumulator `acc`. -/
def parseDigitsAcc (acc : Nat) : List Char → Nat × List Char
  | [] => (acc, [])
  | c :: cs =>
      if isDigitChar c then parseDigitsAcc (acc * 10 + digitVal c) cs
      else (acc, c :: cs)

/-- Parse one or more decimal digits into a natural number. -/
def parseNat : List Char → Option (Nat × List Char)
  | [] => none
  | c :: cs =>
      if isDigitChar c then some (parseDigitsAcc 0 (c :: cs))
      else none

/-- Unescape the character following a backslash in a JSON string. -/
def unescape (c : Char) : Option Char :=
  if c = '"' then some '"'
  else if c = '\\' then some '\\'
  else if c = '/' then some '/'
  else if c = 'n' then some '\n'
  else if c = 't' then some '\t'
  else if c = 'r' then some '\r'
  else if c = 'b' then some (Char.ofNat 8)
  else if c = 'f' then some (Char.ofNat 12)
  else none

/-- Parse the body of a JSON string literal (the opening quote already
consumed), up to and including the closing quote. -/
def parseStringChars : List Char → Option (List Char × List Char)
  | [] => none
  | c :: cs =>
      if c = '"' then some ([], cs)
      else if c = '\\' then
        match cs with
        | [] => none
        | e :: cs2 =>
            match unescape e with
            | some d => Option.map (fun p => (d :: p.1, p.2)) (parseStringChars cs2)
            | none => none
      else Option.map (fun p => (c :: p.1, p.2)) (parseStringChars cs)

mutual

/-- Parse one JSON value (fuelled recursive descent), returning the value
and the unconsumed remainder.  Mirrors the grammar accepted by
`JSON.parse`, with numbers restricted to optionally signed integers. -/
def parseValue : Nat → List Char → Option (Json × List Char)
  | 0, _ => none
  | Nat.succ fuel, input =>
      match skipWs input with
      | [] => none
      | c :: cs =>
          if c = 'n' then
            match cs with
            | 'u' :: 'l' :: 'l' :: rest => some (Json.null, rest)
            | _ => none
          else if c = 't' then
            match cs with
            | 'r' :: 'u' :: 'e' :: rest => some (Json.bool true, rest)
            | _ => none
          else if c = 'f' then
            match cs with
            | 'a' :: 'l' :: 's' :: 'e' :: rest => some (Json.bool false, rest)
            | _ => none
          else if c = '"' then
            Option.map (fun p => (Json.str (String.mk p.1), p.2)) (parseStringChars cs)
          else if c = '-' then
            Option.map (fun p => (Json.num (-(p.1 : Int)), p.2)) (parseNat cs)
          else if isDigitChar c then
            Option.map (fun p => (Json.num (p.1 : Int), p.2)) (parseNat (c :: cs))
          else if c = '[' then
            match skipWs cs with
            | [] => none
            | d :: ds =>
                if d = ']' then some (Json.arr [], ds)
                else
                  Option.bind (parseItems fuel (d :: ds)) (fun p =>
                    match skipWs p.2 with
                    | [] => none
                    | e :: es => if e = ']' then some (Json.arr p.1, es) else none)
          else if c = lbrace then
            match skipWs cs with
            | [] => none
            | d :: ds =>
                if d = rbrace then some (Json.obj [], ds)
                else
                  Option.bind (parseFields fuel (d :: ds)) (fun p =>
                    match skipWs p.2 with
                    | [] => none
                    | e :: es => if e = rbrace then some (Json.obj p.1, es) else none)
          else none

/-- Parse a non-empty comma-separated sequence of JSON values (the body of
an array). -/
def parseItems : Nat → List Char → Option (List Json × List Char)
  | 0, _ => none
  | Nat.succ fuel, input =>
      Option.bind (parseValue fuel input) (fun p =>
        match skipWs p.2 with
        | [] => some ([p.1], [])
        | d :: ds =>
            if d = ',' then
              Option.map (fun q => (p.1 :: q.1, q.2)) (parseItems fuel ds)
            else some ([p.1], d :: ds))

/-- Parse a non-empty comma-separated sequence of `"key":value` pairs (the
body of an object). -/
def parseFields : Nat → List Char → Option (List (String × Json) × List Char)
  | 0, _ => none
  | Nat.succ fuel, input =>
      match skipWs input with
      | [] => none
      | c :: cs =>
          if c = '"' then
            Option.bind (parseStringChars cs) (fun kp =>
              match skipWs kp.2 with
              | [] => none
              | d :: ds =>
                  if d = ':' then
                    Option.bind (parseValue fuel ds) (fun vp =>
                      match skipWs vp.2 with
                      | [] => some ([(String.mk kp.1, vp.1)], [])
                      | e :: es =>
                          if e = ',' then
                            Option.map (fun q => ((String.mk kp.1, vp.1) :: q.1, q.2))
                              (parseFields fuel es)
                          else some ([(String.mk kp.1, vp.1)], e :: es))
                  else none)
          else none

end

/-- `JSON.parse` on the model: parse a whole string as a single JSON value,
allowing surrounding whitespace and rejecting trailing content.  The fuel
`2 * length + 2` bounds the recursion depth of any parse of the input. -/
def parse (s : String) : Option Json :=
  match parseValue (2 * s.data.length + 2) s.data with
  | some (v, rest) =>
      match skipWs rest with
      | [] => some v
      | _ => none
  | none => none

/-! ### The request handler (`src/routes/api.js`) -/

/-- An HTTP response: the status code set by `res.status` (200 when
`res.json` is called without an explicit status) and the JSON body. -/
structure HttpResponse where
  status : Nat
  body : Json

/-- The process-failure payload
`\x7b error: "failed to process the image", details: error_data \x7d`. -/
def processFailureBody (error_data : String) : Json :=
  Json.obj [("error", Json.str "failed to process the image"),
            ("details", Json.str error_data)]

/-- The parse-failure payload sent by the catch block:
`\x7b error: "Failed to parse results from script." \x7d`. -/
def parseFailureBody : Json :=
  Json.obj [("error", Json.str "Failed to parse results from script.")]

/-- The validation-error payload `\x7b error: "No image URL provided" \x7d`. -/
def noUrlBody : Json :=
  Json.obj [("error", Json.str "No image URL provided")]

/-- The `Python_process.on('close')` callback: `code` is the exit code
delivered by the close event (`none` models JavaScript `null`), and
`result_data` / `error_data` are the accumulated stdout / stderr buffers.
The source fails on `code !== 0`; otherwise the try block throws when
`result_data` is falsy (empty) or when `JSON.parse` fails, and the catch
block sends the fixed parse-failure payload. -/
def closeHandler (code : Option Int) (result_data error_data : String) : HttpResponse :=
  if code ≠ some 0 then
    ⟨500, processFailureBody error_data⟩
  else
    match (if result_data = "" then none else parse result_data) with
    | some results => ⟨200, results⟩
    | none => ⟨500, parseFailureBody⟩

/-- One `data` event on one of the child process's output streams. -/
inductive StreamEvent where
  | stdoutData (chunk : String) : StreamEvent
  | stderrData (chunk : String) : StreamEvent

/-- Effect of one `data` event on the `(result_data, error_data)` buffer
pair: each handler appends its chunk to its own buffer. -/
def stepEvent : String × String → StreamEvent → String × String
  | (result_data, error_data), StreamEvent.stdoutData s => (result_data ++ s, error_data)
  | (result_data, error_data), StreamEvent.stderrData s => (result_data, error_data ++ s)

/-- The buffer pair after a sequence of `data` events, starting from the
two empty-string initializers. -/
def runEvents (evs : List StreamEvent) : String × String :=
  evs.foldl stepEvent ("", "")

/-- The stdout chunk carried by an event, if it is a stdout event. -/
def stdoutChunk : StreamEvent → Option String
  | StreamEvent.stdoutData s => some s
  | StreamEvent.stderrData _ => none

/-- The stderr chunk carried by an event, if it is a stderr event. -/
def stderrChunk : StreamEvent → Option String
  | StreamEvent.stdoutData _ => none
  | StreamEvent.stderrData s => some s

/-- Concatenation of a list of strings in order. -/
def concatStrings : List String → String
  | [] => ""
  | s :: rest => s ++ concatStrings rest

/-- A complete child-process run: the stream events delivered before the
close event, and the exit code the close event reports. -/
structure ProcessRun where
  events : List StreamEvent
  exitCode : Option Int

/-- Outcome of one request: either a reply sent without spawning a child
process, or a child process spawned (with the given argument) followed by
the reply computed at its close event. -/
inductive RequestOutcome where
  | reply (resp : HttpResponse) : RequestOutcome
  | spawned (url : Json) (resp : HttpResponse) : RequestOutcome

/-- JavaScript truthiness of the destructured `imageUrl` field: `none`
models an absent field (`undefined`). -/
def truthyOpt : Option Json → Bool
  | none => false
  | some u => jsTruthy u

/-- The `POST /get-url` route handler: if `imageUrl` is missing or falsy,
reply 400 immediately without spawning; otherwise spawn the child process
with the URL and reply from the close handler with the accumulated
buffers. -/
def handleGetUrl (imageUrl : Option Json) (run : ProcessRun) : RequestOutcome :=
  match imageUrl with
  | none => RequestOutcome.reply ⟨400, noUrlBody⟩
  | some u =>
      if jsTruthy u then
        RequestOutcome.spawned u
          (closeHandler run.exitCode (runEvents run.events).1 (runEvents run.events).2)
      else RequestOutcome.reply ⟨400, noUrlBody⟩

/-- The `app.listen` argument in `src/server.js`: `process.env.PORT || 3000`.
An environment value is a string or absent; the fallback is the number
3000. -/
def listenArg (envPort : Option String) : String ⊕ Nat :=
  match envPort with
  | some s => if s = "" then Sum.inr 3000 else Sum.inl s
  | none => Sum.inr 3000

/-! ### Digit and whitespace lemmas -/

/-- Does the input start with a decimal digit? -/
def digitHead : List Char → Bool
  | [] => false
  | c :: _ => isDigitChar c

theorem digit_bounds {c : Char} (h : isDigitChar c = true) :
    48 ≤ c.toNat ∧ c.toNat ≤ 57 := by
  simpa [isDigitChar, Bool.and_eq_true, decide_eq_true_eq] using h

theorem isDigitChar_digitChar {d : Nat} (h : d < 10) :
    isDigitChar (digitChar d) = true := by
  interval_cases d <;> decide

theorem digitVal_digitChar {d : Nat} (h : d < 10) :
    digitVal (digitChar d) = d := by
  interval_cases d <;> decide

theorem isWsChar_of_digit {c : Char} (h : isDigitChar c = true) :
    isWsChar c = false := by
  have hb := digit_bounds h
  unfold isWsChar
  simp only [Bool.or_eq_false_iff, decide_eq_false_iff_not]
  refine ⟨⟨⟨?_, ?_⟩, ?_⟩, ?_⟩ <;>
    (intro he; subst he; revert hb; decide)

theorem skipWs_cons {c : Char} (cs : List Char) (h : isWsChar c = false) :
    skipWs (c :: cs) = c :: cs := by
  simp [skipWs, h]

/-! ### Decimal digits round trip -/

theorem natChars_head (n : Nat) :
    ∃ d ds, natChars n = d :: ds ∧ isDigitChar d = true := by
  induction n using Nat.strong_induction_on with
  | _ n ih =>
    by_cases h : n < 10
    · exact ⟨digitChar n, [], by rw [natChars]; simp [h], isDigitChar_digitChar h⟩
    · obtain ⟨d, ds, hds, hd⟩ := ih (n / 10) (Nat.div_lt_self (by omega) (by omega))
      refine ⟨d, ds ++ [digitChar (n % 10)], ?_, hd⟩
      rw [natChars]; simp [h, hds]

theorem parseDigitsAcc_stop (acc : Nat) {rest : List Char}
    (h : digitHead rest = false) : parseDigitsAcc acc rest = (acc, rest) := by
  cases rest with
  | nil => rfl
  | cons c cs =>
    simp only [digitHead] at h
    simp [parseDigitsAcc, h]

theorem parseDigitsAcc_natChars (n : Nat) : ∀ (acc : Nat) (rest : List Char),
    parseDigitsAcc acc (natChars n ++ rest) =
      parseDigitsAcc (acc * 10 ^ (natChars n).length + n) rest := by
  induction n using Nat.strong_induction_on with
  | _ n ih =>
    intro acc rest
    by_cases h : n < 10
    · rw [natChars]; simp only [h, reduceDIte, List.singleton_append, List.length_singleton]
      simp [parseDigitsAcc, isDigitChar_digitChar h, digitVal_digitChar h]
    · rw [natChars]
      simp only [h, reduceDIte, List.append_assoc, List.singleton_append, List.length_append,
        List.length_singleton]
      rw [ih (n / 10) (Nat.div_lt_self (by omega) (by omega)) acc]
      have h10 : n % 10 < 10 := Nat.mod_lt _ (by omega)
      simp only [parseDigitsAcc, isDigitChar_digitChar h10, digitVal_digitChar h10, if_true]
      have : (acc * 10 ^ (natChars (n / 10)).length + n / 10) * 10 + n % 10 =
          acc * 10 ^ ((natChars (n / 10)).length + 1) + n := by
        rw [pow_succ]
        have := Nat.div_add_mod n 10
        ring_nf
        omega
      rw [this]

theorem parseNat_natChars (n : Nat) {rest : List Char} (h : digitHead rest = false) :
    parseNat (natChars n ++ rest) = some (n, rest) := by
  obtain ⟨d, ds, hds, hd⟩ := natChars_head n
  rw [hds, List.cons_append, parseNat, if_pos hd, ← List.cons_append, ← hds,
    parseDigitsAcc_natChars n 0 rest, parseDigitsAcc_stop _ h]
  simp

/-! ### String literal round trip -/

theorem escapeChars_cons (c : Char) (cs : List Char) :
    escapeChars (c :: cs) = escChar c ++ escapeChars cs := by
  simp [escapeChars]

theorem parseStringChars_quote (cs : List Char) :
    parseStringChars ('"' :: cs) = some ([], cs) := by
  rw [parseStringChars.eq_def]; simp

theorem parseStringChars_esc {e d : Char} (h : unescape e = some d) (cs : List Char) :
    parseStringChars ('\\' :: e :: cs) =
      Option.map (fun p => (d :: p.1, p.2)) (parseStringChars cs) := by
  rw [parseStringChars.eq_def]
  simp [h, show ¬(('\\' : Char) = '"') by decide]

theorem parseStringChars_lit {c : Char} (hq : c ≠ '"') (hb : c ≠ '\\') (cs : List Char) :
    parseStringChars (c :: cs) =
      Option.map (fun p => (c :: p.1, p.2)) (parseStringChars cs) := by
  rw [parseStringChars.eq_def]
  simp [hq, hb]

theorem parseStringChars_escape (cs : List Char) : ∀ rest : List Char,
    parseStringChars (escapeChars cs ++ '"' :: rest) = some (cs, rest) := by
  induction cs with
  | nil =>
    intro rest
    rw [show escapeChars [] ++ '"' :: rest = '"' :: rest from rfl, parseStringChars_quote]
  | cons c cs ih =>
    intro rest
    by_cases hq : c = '"'
    · subst hq
      rw [show escapeChars ('"' :: cs) ++ '"' :: rest =
            '\\' :: '"' :: (escapeChars cs ++ '"' :: rest) by simp [escapeChars, escChar],
        parseStringChars_esc (show unescape '"' = some '"' from rfl), ih rest]
      rfl
    · by_cases hb : c = '\\'
      · subst hb
        rw [show escapeChars ('\\' :: cs) ++ '"' :: rest =
              '\\' :: '\\' :: (escapeChars cs ++ '"' :: rest) by simp [escapeChars, escChar],
          parseStringChars_esc (show unescape '\\' = some '\\' from rfl), ih rest]
        rfl
      · rw [show escapeChars (c :: cs) ++ '"' :: rest = c :: (escapeChars cs ++ '"' :: rest) by
            simp [escapeChars, escChar, hq, hb],
          parseStringChars_lit hq hb, ih rest]
        rfl

/-! ### Sizes of JSON values, bounding the parser fuel -/

mutual

/-- Structural size of a JSON value, an upper bound on the parser fuel its
serialization needs. -/
def sizeJ : Json → Nat
  | Json.null => 1
  | Json.bool _ => 1
  | Json.num _ => 1
  | Json.str _ => 1
  | Json.arr xs => 1 + sizeL xs
  | Json.obj fs => 1 + sizeF fs

/-- Structural size of an array body. -/
def sizeL : List Json → Nat
  | [] => 1
  | x :: xs => 1 + sizeJ x + sizeL xs

/-- Structural size of an object body. -/
def sizeF : List (String × Json) → Nat
  | [] => 1
  | kv :: fs => 1 + sizeJ kv.2 + sizeF fs

end

theorem sizeJ_pos (v : Json) : 1 ≤ sizeJ v := by
  cases v <;> simp [sizeJ]

theorem sizeL_pos (xs : List Json) : 1 ≤ sizeL xs := by
  cases xs <;> simp [sizeL]
  omega

theorem sizeF_pos (fs : List (String × Json)) : 1 ≤ sizeF fs := by
  cases fs <;> simp [sizeF]
  omega

theorem digit_ne_rbracket {c : Char} (h : isDigitChar c = true) : c ≠ ']' := by
  have hb := digit_bounds h
  intro he; subst he; revert hb; decide

theorem intChars_length_pos (n : Int) : 0 < (intChars n).length := by
  by_cases hn : n < 0
  · simp [intChars, hn]
  · obtain ⟨d, ds, hds, _⟩ := natChars_head n.toNat
    simp [intChars, hn, hds]

/-- The first character of a serialized value is never whitespace and never
a closing bracket. -/
theorem serializeChars_shape (v : Json) :
    ∃ c cs, serializeChars v = c :: cs ∧ isWsChar c = false ∧ c ≠ ']' := by
  cases v with
  | null => exact ⟨'n', ['u', 'l', 'l'], by simp [serializeChars], by decide, by decide⟩
  | bool b =>
    cases b
    · exact ⟨'f', ['a', 'l', 's', 'e'], by simp [serializeChars], by decide, by decide⟩
    · exact ⟨'t', ['r', 'u', 'e'], by simp [serializeChars], by decide, by decide⟩
  | num n =>
    by_cases hn : n < 0
    · exact ⟨'-', natChars n.natAbs, by simp [serializeChars, intChars, hn], by decide, by decide⟩
    · obtain ⟨d, ds, hds, hd⟩ := natChars_head n.toNat
      exact ⟨d, ds, by simp [serializeChars, intChars, hn, hds],
        isWsChar_of_digit hd, digit_ne_rbracket hd⟩
  | str s =>
    exact ⟨'"', escapeChars s.data ++ ['"'], by simp [serializeChars], by decide, by decide⟩
  | arr xs =>
    exact ⟨'[', serializeItems xs ++ [']'], by simp [serializeChars], by decide, by decide⟩
  | obj fs =>
    exact ⟨lbrace, serializeFields fs ++ [rbrace], by simp [serializeChars], by decide, by decide⟩

/-- The size of a value is at most twice the length of its serialization
(and correspondingly for array and object bodies). -/
theorem size_le_two_len : ∀ k : Nat,
    (∀ v, sizeJ v ≤ k → sizeJ v ≤ 2 * (serializeChars v).length) ∧
    (∀ xs, sizeL xs ≤ k → sizeL xs ≤ 2 * (serializeItems xs).length + 2) ∧
    (∀ fs, sizeF fs ≤ k → sizeF fs ≤ 2 * (serializeFields fs).length + 2) := by
  intro k
  induction k with
  | zero =>
    refine ⟨fun v h => ?_, fun xs h => ?_, fun fs h => ?_⟩
    · have := sizeJ_pos v; omega
    · have := sizeL_pos xs; omega
    · have := sizeF_pos fs; omega
  | succ k ih =>
    obtain ⟨ihv, ihl, ihf⟩ := ih
    refine ⟨fun v h => ?_, fun xs h => ?_, fun fs h => ?_⟩
    · cases v with
      | null => simp [sizeJ, serializeChars]
      | bool b => cases b <;> simp [sizeJ, serializeChars]
      | num n =>
        have := intChars_length_pos n
        simp only [sizeJ, serializeChars]
        omega
      | str s =>
        simp [sizeJ, serializeChars]
        omega
      | arr xs =>
        simp only [sizeJ, serializeChars, List.length_cons, List.length_append,
          List.length_singleton]
        have hx : sizeL xs ≤ k := by simp only [sizeJ] at h; omega
        have := ihl xs hx
        omega
      | obj fs =>
        simp only [sizeJ, serializeChars, List.length_cons, List.length_append,
          List.length_singleton]
        have hx : sizeF fs ≤ k := by simp only [sizeJ] at h; omega
        have := ihf fs hx
        omega
    · cases xs with
      | nil => simp [sizeL, serializeItems]
      | cons x xs =>
        cases xs with
        | nil =>
          simp only [sizeL, serializeItems]
          have hx : sizeJ x ≤ k := by simp only [sizeL] at h; omega
          have := ihv x hx
          omega
        | cons y t =>
          simp only [sizeL, serializeItems, List.length_append, List.length_cons]
          have hx : sizeJ x ≤ k := by simp only [sizeL] at h; have := sizeL_pos (y :: t); omega
          have hyt : sizeL (y :: t) ≤ k := by
            simp only [sizeL] at h ⊢; have := sizeJ_pos x; omega
          have h1 := ihv x hx
          have h2 := ihl (y :: t) hyt
          simp only [sizeL] at h2 ⊢
          omega
    · cases fs with
      | nil => simp [sizeF, serializeFields]
      | cons kv fs =>
        obtain ⟨kk, vv⟩ := kv
        cases fs with
        | nil =>
          simp only [sizeF, serializeFields, List.length_cons, List.length_append]
          have hx : sizeJ vv ≤ k := by simp only [sizeF] at h; omega
          have := ihv vv hx
          omega
        | cons kv2 t =>
          simp only [sizeF, serializeFields, List.length_append, List.length_cons]
          have hx : sizeJ vv ≤ k := by
            simp only [sizeF] at h; have := sizeF_pos (kv2 :: t); omega
          have ht : sizeF (kv2 :: t) ≤ k := by
            simp only [sizeF] at h ⊢; have := sizeJ_pos vv; omega
          have h1 := ihv vv hx
          have h2 := ihf (kv2 :: t) ht
          simp only [sizeF] at h2 ⊢
          omega

/-! ### Step lemmas for the fuelled value parser -/

theorem parseValue_null (f : Nat) (rest : List Char) :
    parseValue (f + 1) ('n' :: 'u' :: 'l' :: 'l' :: rest) = some (Json.null, rest) := by
  rw [parseValue.eq_def]
  simp [skipWs_cons _ (by decide : isWsChar 'n' = false)]

theorem parseValue_true (f : Nat) (rest : List Char) :
    parseValue (f + 1) ('t' :: 'r' :: 'u' :: 'e' :: rest) = some (Json.bool true, rest) := by
  rw [parseValue.eq_def]
  simp [skipWs_cons _ (by decide : isWsChar 't' = false)]

theorem parseValue_false (f : Nat) (rest : List Char) :
    parseValue (f + 1) ('f' :: 'a' :: 'l' :: 's' :: 'e' :: rest) =
      some (Json.bool false, rest) := by
  rw [parseValue.eq_def]
  simp [skipWs_cons _ (by decide : isWsChar 'f' = false)]

theorem parseValue_quote (f : Nat) (cs : List Char) :
    parseValue (f + 1) ('"' :: cs) =
      Option.map (fun p => (Json.str (String.mk p.1), p.2)) (parseStringChars cs) := by
  rw [parseValue.eq_def]
  simp [skipWs_cons _ (by decide : isWsChar '"' = false)]

theorem parseValue_neg (f : Nat) (cs : List Char) :
    parseValue (f + 1) ('-' :: cs) =
      Option.map (fun p => (Json.num (-(p.1 : Int)), p.2)) (parseNat cs) := by
  rw [parseValue.eq_def]
  simp [skipWs_cons _ (by decide : isWsChar '-' = false)]

theorem parseValue_digit (f : Nat) {c : Char} (hd : isDigitChar c = true) (cs : List Char) :
    parseValue (f + 1) (c :: cs) =
      Option.map (fun p => (Json.num (p.1 : Int), p.2)) (parseNat (c :: cs)) := by
  have hb := digit_bounds hd
  have h1 : ¬(c = 'n') := fun he => by subst he; revert hb; decide
  have h2 : ¬(c = 't') := fun he => by subst he; revert hb; decide
  have h3 : ¬(c = 'f') := fun he => by subst he; revert hb; decide
  have h4 : ¬(c = '"') := fun he => by subst he; revert hb; decide
  have h5 : ¬(c = '-') := fun he => by subst he; revert hb; decide
  rw [parseValue.eq_def]
  simp [skipWs_cons _ (isWsChar_of_digit hd), h1, h2, h3, h4, h5, hd]

theorem parseValue_arrNil (f : Nat) (rest : List Char) :
    parseValue (f + 1) ('[' :: ']' :: rest) = some (Json.arr [], rest) := by
  rw [parseValue.eq_def]
  simp [skipWs_cons _ (by decide : isWsChar '[' = false),
    skipWs_cons _ (by decide : isWsChar ']' = false),
    show isDigitChar '[' = false by decide]

theorem parseValue_arrCons (f : Nat) {d : Char} (hw : isWsChar d = false)
    (hne : d ≠ ']') (ds : List Char) :
    parseValue (f + 1) ('[' :: d :: ds) =
      Option.bind (parseItems f (d :: ds)) (fun p =>
        match skipWs p.2 with
        | [] => none
        | e :: es => if e = ']' then some (Json.arr p.1, es) else none) := by
  rw [parseValue.eq_def]
  simp [skipWs_cons _ (by decide : isWsChar '[' = false), skipWs_cons _ hw, hne,
    show isDigitChar '[' = false by decide]

theorem parseValue_objNil (f : Nat) (rest : List Char) :
    parseValue (f + 1) (lbrace :: rbrace :: rest) = some (Json.obj [], rest) := by
  rw [parseValue.eq_def]
  simp [skipWs_cons _ (by decide : isWsChar lbrace = false),
    skipWs_cons _ (by decide : isWsChar rbrace = false),
    show ¬(lbrace = 'n') by decide, show ¬(lbrace = 't') by decide,
    show ¬(lbrace = 'f') by decide, show ¬(lbrace = '"') by decide,
    show ¬(lbrace = '-') by decide, show isDigitChar lbrace = false by decide,
    show ¬(lbrace = '[') by decide]

theorem parseValue_objCons (f : Nat) {d : Char} (hw : isWsChar d = false)
    (hne : d ≠ rbrace) (ds : List Char) :
    parseValue (f + 1) (lbrace :: d :: ds) =
      Option.bind (parseFields f (d :: ds)) (fun p =>
        match skipWs p.2 with
        | [] => none
        | e :: es => if e = rbrace then some (Json.obj p.1, es) else none) := by
  rw [parseValue.eq_def]
  simp [skipWs_cons _ (by decide : isWsChar lbrace = false), skipWs_cons _ hw, hne,
    show ¬(lbrace = 'n') by decide, show ¬(lbrace = 't') by decide,
    show ¬(lbrace = 'f') by decide, show ¬(lbrace = '"') by decide,
    show ¬(lbrace = '-') by decide, show isDigitChar lbrace = false by decide,
    show ¬(lbrace = '[') by decide]

theorem parseItems_succ (f : Nat) (input : List Char) :
    parseItems (f + 1) input =
      Option.bind (parseValue f input) (fun p =>
        match skipWs p.2 with
        | [] => some ([p.1], [])
        | d :: ds =>
            if d = ',' then
              Option.map (fun q => (p.1 :: q.1, q.2)) (parseItems f ds)
            else some ([p.1], d :: ds)) := by
  rw [parseItems.eq_def]

theorem parseFields_quote (f : Nat) (cs : List Char) :
    parseFields (f + 1) ('"' :: cs) =
      Option.bind (parseStringChars cs) (fun kp =>
        match skipWs kp.2 with
        | [] => none
        | d :: ds =>
            if d = ':' then
              Option.bind (parseValue f ds) (fun vp =>
                match skipWs vp.2 with
                | [] => some ([(String.mk kp.1, vp.1)], [])
                | e :: es =>
                    if e = ',' then
                      Option.map (fun q => ((String.mk kp.1, vp.1) :: q.1, q.2))
                        (parseFields f es)
                    else some ([(String.mk kp.1, vp.1)], e :: es))
            else none) := by
  rw [parseFields.eq_def]
  simp [skipWs_cons _ (by decide : isWsChar '"' = false)]

/-! ### Serialization round trip -/

theorem string_mk_data (s : String) : String.mk s.data = s := rfl

theorem serializeItems_head (x : Json) (xs : List Json) :
    ∃ t, serializeItems (x :: xs) = serializeChars x ++ t := by
  cases xs with
  | nil => exact ⟨[], by simp [serializeItems]⟩
  | cons y t => exact ⟨',' :: serializeItems (y :: t), by simp [serializeItems]⟩

theorem serializeFields_head (kv : String × Json) (fs : List (String × Json)) :
    ∃ t, serializeFields (kv :: fs) = '"' :: t := by
  obtain ⟨k, v⟩ := kv
  cases fs with
  | nil =>
    exact ⟨escapeChars k.data ++ '"' :: ':' :: serializeChars v, by simp [serializeFields]⟩
  | cons f2 t =>
    exact ⟨(escapeChars k.data ++ '"' :: ':' :: serializeChars v) ++
      ',' :: serializeFields (f2 :: t), by simp [serializeFields]⟩

/-- Parsing inverts serialization: with enough fuel, a serialized value
followed by any non-digit-headed remainder parses back to exactly that
value (and correspondingly for array and object bodies followed by their
closing bracket). -/
theorem roundtrip (f : Nat) :
    (∀ v rest, sizeJ v ≤ f → digitHead rest = false →
        parseValue f (serializeChars v ++ rest) = some (v, rest)) ∧
    (∀ xs rest, sizeL xs ≤ f → xs ≠ [] →
        parseItems f (serializeItems xs ++ ']' :: rest) = some (xs, ']' :: rest)) ∧
    (∀ fs rest, sizeF fs ≤ f → fs ≠ [] →
        parseFields f (serializeFields fs ++ rbrace :: rest) = some (fs, rbrace :: rest)) := by
  induction f with
  | zero =>
    refine ⟨fun v rest h _ => absurd h ?_, fun xs rest h _ => absurd h ?_,
            fun fs rest h _ => absurd h ?_⟩
    · have := sizeJ_pos v; omega
    · have := sizeL_pos xs; omega
    · have := sizeF_pos fs; omega
  | succ f ih =>
    obtain ⟨ihv, ihl, ihf⟩ := ih
    refine ⟨?_, ?_, ?_⟩
    · intro v rest hs hrest
      cases v with
      | null =>
        rw [show serializeChars Json.null ++ rest = 'n' :: 'u' :: 'l' :: 'l' :: rest by
          simp [serializeChars]]
        exact parseValue_null f rest
      | bool b =>
        cases b
        · rw [show serializeChars (Json.bool false) ++ rest =
              'f' :: 'a' :: 'l' :: 's' :: 'e' :: rest by simp [serializeChars]]
          exact parseValue_false f rest
        · rw [show serializeChars (Json.bool true) ++ rest =
              't' :: 'r' :: 'u' :: 'e' :: rest by simp [serializeChars]]
          exact parseValue_true f rest
      | num n =>
        by_cases hn : n < 0
        · rw [show serializeChars (Json.num n) ++ rest = '-' :: (natChars n.natAbs ++ rest) by
              simp [serializeChars, intChars, hn],
            parseValue_neg f _, parseNat_natChars _ hrest]
          have hcast : -((n.natAbs : Int)) = n := by omega
          show some (Json.num (-((n.natAbs : Int))), rest) = some (Json.num n, rest)
          rw [hcast]
        · obtain ⟨d, ds, hds, hd⟩ := natChars_head n.toNat
          have hser : serializeChars (Json.num n) ++ rest = d :: (ds ++ rest) := by
            simp [serializeChars, intChars, hn, hds]
          rw [hser, parseValue_digit f hd, ← List.cons_append, ← hds,
            parseNat_natChars _ hrest]
          have hcast : ((n.toNat : Int)) = n := by omega
          show some (Json.num ((n.toNat : Int)), rest) = some (Json.num n, rest)
          rw [hcast]
      | str s =>
        have hser : serializeChars (Json.str s) ++ rest =
            '"' :: (escapeChars s.data ++ '"' :: rest) := by
          simp [serializeChars]
        rw [hser, parseValue_quote, parseStringChars_escape]
        simp [string_mk_data]
      | arr xs =>
        cases xs with
        | nil =>
          rw [show serializeChars (Json.arr []) ++ rest = '[' :: ']' :: rest by
            simp [serializeChars, serializeItems]]
          exact parseValue_arrNil f rest
        | cons x xs =>
          obtain ⟨c, cs, hcs, hwc, hcne⟩ := serializeChars_shape x
          obtain ⟨t, ht⟩ := serializeItems_head x xs
          have hsz : sizeL (x :: xs) ≤ f := by simp only [sizeJ] at hs; omega
          have hitems := ihl (x :: xs) rest hsz (by simp)
          have hser : serializeChars (Json.arr (x :: xs)) ++ rest =
              '[' :: (serializeItems (x :: xs) ++ ']' :: rest) := by
            simp [serializeChars]
          have hhead : serializeItems (x :: xs) ++ ']' :: rest =
              c :: (cs ++ (t ++ ']' :: rest)) := by
            rw [ht, hcs]; simp
          rw [hser, hhead, parseValue_arrCons f hwc hcne, ← hhead, hitems]
          simp [skipWs_cons _ (by decide : isWsChar ']' = false)]
      | obj fs =>
        cases fs with
        | nil =>
          rw [show serializeChars (Json.obj []) ++ rest = lbrace :: rbrace :: rest by
            simp [serializeChars, serializeFields]]
          exact parseValue_objNil f rest
        | cons kv fs =>
          obtain ⟨t, ht⟩ := serializeFields_head kv fs
          have hsz : sizeF (kv :: fs) ≤ f := by simp only [sizeJ] at hs; omega
          have hfields := ihf (kv :: fs) rest hsz (by simp)
          have hser : serializeChars (Json.obj (kv :: fs)) ++ rest =
              lbrace :: (serializeFields (kv :: fs) ++ rbrace :: rest) := by
            simp [serializeChars]
          have hhead : serializeFields (kv :: fs) ++ rbrace :: rest =
              '"' :: (t ++ rbrace :: rest) := by
            rw [ht]; simp
          rw [hser, hhead, parseValue_objCons f (by decide) (by decide), ← hhead, hfields]
          simp [skipWs_cons _ (by decide : isWsChar rbrace = false)]
    · intro xs rest hs hne
      cases xs with
      | nil => exact absurd rfl hne
      | cons x xs =>
        have hsx : sizeJ x ≤ f := by
          simp only [sizeL] at hs; have := sizeL_pos xs; omega
        cases xs with
        | nil =>
          rw [show serializeItems [x] ++ ']' :: rest = serializeChars x ++ ']' :: rest by
              simp [serializeItems],
            parseItems_succ, ihv x (']' :: rest) hsx rfl]
          simp [skipWs_cons _ (by decide : isWsChar ']' = false),
            show ¬(']' = ',') by decide]
        | cons y t =>
          have hsyt : sizeL (y :: t) ≤ f := by
            simp only [sizeL] at hs ⊢; have := sizeJ_pos x; omega
          rw [show serializeItems (x :: y :: t) ++ ']' :: rest =
              serializeChars x ++ (',' :: (serializeItems (y :: t) ++ ']' :: rest)) by
              simp [serializeItems],
            parseItems_succ,
            ihv x (',' :: (serializeItems (y :: t) ++ ']' :: rest)) hsx rfl]
          simp [skipWs_cons _ (by decide : isWsChar ',' = false),
            ihl (y :: t) rest hsyt (by simp)]
    · intro fs rest hs hne
      cases fs with
      | nil => exact absurd rfl hne
      | cons kv fs =>
        obtain ⟨kk, vv⟩ := kv
        have hsv : sizeJ vv ≤ f := by
          simp only [sizeF] at hs; have := sizeF_pos fs; omega
        cases fs with
        | nil =>
          rw [show serializeFields [(kk, vv)] ++ rbrace :: rest =
              '"' :: (escapeChars kk.data ++
                '"' :: (':' :: (serializeChars vv ++ rbrace :: rest))) by
              simp [serializeFields],
            parseFields_quote, parseStringChars_escape]
          simp only [Option.some_bind]
          rw [skipWs_cons _ (by decide : isWsChar ':' = false)]
          simp only [show (':' = ':') = True by simp, if_true]
          rw [ihv vv (rbrace :: rest) hsv rfl]
          simp [skipWs_cons _ (by decide : isWsChar rbrace = false),
            show ¬(rbrace = ',') by decide, string_mk_data]
        | cons kv2 t =>
          have hst : sizeF (kv2 :: t) ≤ f := by
            simp only [sizeF] at hs ⊢; have := sizeJ_pos vv; omega
          rw [show serializeFields ((kk, vv) :: kv2 :: t) ++ rbrace :: rest =
              '"' :: (escapeChars kk.data ++
                '"' :: (':' :: (serializeChars vv ++
                  (',' :: (serializeFields (kv2 :: t) ++ rbrace :: rest))))) by
              simp [serializeFields],
            parseFields_quote, parseStringChars_escape]
          simp only [Option.some_bind]
          rw [skipWs_cons _ (by decide : isWsChar ':' = false)]
          simp only [show (':' = ':') = True by simp, if_true]
          rw [ihv vv (',' :: (serializeFields (kv2 :: t) ++ rbrace :: rest)) hsv rfl]
          simp [skipWs_cons _ (by decide : isWsChar ',' = false),
            ihf (kv2 :: t) rest hst (by simp), string_mk_data]

/-- `JSON.parse` inverts `JSON.stringify` on the model. -/
theorem parse_stringify (v : Json) : parse (stringify v) = some v := by
  have hlen : sizeJ v ≤ 2 * (serializeChars v).length + 2 := by
    have := (size_le_two_len (sizeJ v)).1 v le_rfl
    omega
  have h := (roundtrip (2 * (serializeChars v).length + 2)).1 v [] hlen rfl
  rw [List.append_nil] at h
  simp only [parse, stringify]
  rw [h]
  rfl

/-- A serialized value is never the empty string. -/
theorem stringify_ne_empty (v : Json) : stringify v ≠ "" := by
  obtain ⟨c, cs, hcs, -, -⟩ := serializeChars_shape v
  unfold stringify
  rw [hcs]
  intro h
  have hd := congrArg String.data h
  simp at hd

/-- Folding the stream events from arbitrary initial buffers appends the
concatenated per-stream chunks to each buffer independently. -/
theorem foldl_stepEvent (evs : List StreamEvent) : ∀ r e : String,
    evs.foldl stepEvent (r, e) =
      (r ++ concatStrings (evs.filterMap stdoutChunk),
       e ++ concatStrings (evs.filterMap stderrChunk)) := by
  induction evs with
  | nil => intro r e; simp [concatStrings, String.append_empty]
  | cons ev evs ih =>
    intro r e
    cases ev with
    | stdoutData s =>
      simp only [List.foldl_cons, stepEvent, List.filterMap_cons, stdoutChunk, stderrChunk]
      rw [ih, concatStrings]
      simp [String.append_assoc]
    | stderrData s =>
      simp only [List.foldl_cons, stepEvent, List.filterMap_cons, stdoutChunk, stderrChunk]
      rw [ih, concatStrings]
      simp [String.append_assoc]

/-! ### Claims -/

/-- C1: for every request whose subprocess terminates with exit code other
than 0, regardless of the stdout and stderr contents, the close handler
responds 500 with body
`\x7b error: "failed to process the image", details: <stderr text> \x7d`. -/
theorem c1_nonzero_exit_process_failure (code : Option Int)
    (result_data error_data : String) (h : code ≠ some 0) :
    closeHandler code result_data error_data = ⟨500, processFailureBody error_data⟩ := by
  rw [closeHandler, if_pos h]

/-- Witness for C1: exit code 1 with valid JSON on stdout still fails. -/
theorem c1_witness :
    (some (1 : Int) ≠ some 0) ∧
      closeHandler (some 1) "[]" "bad url" = ⟨500, processFailureBody "bad url"⟩ :=
  ⟨by decide, c1_nonzero_exit_process_failure (some 1) "[]" "bad url" (by decide)⟩

/-- C2: for exit code 0 with a non-empty stdout buffer that parses as JSON,
and any stderr content, the handler responds 200 with the parsed value as
the body; the stderr text does not appear in the response (the response is
the same for every stderr content). -/
theorem c2_success_parses_stdout (result_data error_data : String) (v : Json)
    (hne : result_data ≠ "") (hp : parse result_data = some v) :
    closeHandler (some 0) result_data error_data = ⟨200, v⟩ := by
  rw [closeHandler, if_neg (by simp : ¬(some (0 : Int) ≠ some 0)), if_neg hne, hp]

/-- Witness for C2: stdout `[1]`, non-empty stderr. -/
theorem c2_witness :
    ("[1]" : String) ≠ "" ∧ parse "[1]" = some (Json.arr [Json.num 1]) ∧
      closeHandler (some 0) "[1]" "non-fatal warning" = ⟨200, Json.arr [Json.num 1]⟩ :=
  ⟨by decide, by rfl,
    c2_success_parses_stdout "[1]" "non-fatal warning" (Json.arr [Json.num 1])
      (by decide) (by rfl)⟩

/-- C3: for every request whose `imageUrl` field is missing or falsy, the
handler replies 400 with `\x7b error: "No image URL provided" \x7d` and no
child process is spawned (the outcome is a `reply`, not a `spawned`). -/
theorem c3_missing_url_rejected (imageUrl : Option Json) (run : ProcessRun)
    (h : truthyOpt imageUrl = false) :
    handleGetUrl imageUrl run = RequestOutcome.reply ⟨400, noUrlBody⟩ := by
  cases imageUrl with
  | none => rfl
  | some u =>
    simp only [truthyOpt] at h
    simp [handleGetUrl, h]

/-- Witness for C3: the empty-string URL is falsy and is rejected without
spawning. -/
theorem c3_witness :
    truthyOpt (some (Json.str "")) = false ∧
      handleGetUrl (some (Json.str "")) ⟨[], some 0⟩ =
        RequestOutcome.reply ⟨400, noUrlBody⟩ :=
  ⟨by rfl, c3_missing_url_rejected (some (Json.str "")) ⟨[], some 0⟩ (by rfl)⟩

/-- Counterexample to C4 as stated: on exit code 0 with empty stdout and
stderr "boom", the response is not the process-failure payload carrying the
stderr text (it is the fixed parse-failure payload instead). -/
theorem c4_counterexample :
    closeHandler (some 0) "" "boom" ≠ ⟨500, processFailureBody "boom"⟩ := by
  intro h
  rw [show closeHandler (some 0) "" "boom" = ⟨500, parseFailureBody⟩ from rfl] at h
  have hb := congrArg HttpResponse.body h
  simp only [parseFailureBody, processFailureBody] at hb
  simp at hb

/-- C4 amended: for exit code 0 with an empty stdout buffer, the handler
responds 500 with the fixed parse-failure payload
`\x7b error: "Failed to parse results from script." \x7d`; the stderr text
is logged but not included in the response. -/
theorem c4_empty_output_parse_failure (error_data : String) :
    closeHandler (some 0) "" error_data = ⟨500, parseFailureBody⟩ := by
  rw [closeHandler, if_neg (by simp : ¬(some (0 : Int) ≠ some 0)), if_pos rfl]

/-- C5: for exit code 0 with a non-empty stdout buffer that is not valid
JSON, the handler responds 500 with exactly the fixed body
`\x7b error: "Failed to parse results from script." \x7d`: neither the raw
stdout text nor any parser message occurs in the response. -/
theorem c5_invalid_output_parse_failure (result_data error_data : String)
    (hne : result_data ≠ "") (hp : parse result_data = none) :
    closeHandler (some 0) result_data error_data = ⟨500, parseFailureBody⟩ := by
  rw [closeHandler, if_neg (by simp : ¬(some (0 : Int) ≠ some 0)), if_neg hne, hp]

/-- Witness for C5: stdout "not json". -/
theorem c5_witness :
    ("not json" : String) ≠ "" ∧ parse "not json" = none ∧
      closeHandler (some 0) "not json" "oops" = ⟨500, parseFailureBody⟩ :=
  ⟨by decide, by rfl,
    c5_invalid_output_parse_failure "not json" "oops" (by decide) (by rfl)⟩

/-- C6: round-trip passthrough — for every JSON value `V`, if the process
exits 0 with stdout equal to the serialization of `V` (which is never
empty), the handler responds 200 with a body equal to `V`. -/
theorem c6_roundtrip_passthrough (v : Json) (error_data : String) :
    stringify v ≠ "" ∧ closeHandler (some 0) (stringify v) error_data = ⟨200, v⟩ := by
  refine ⟨stringify_ne_empty v, ?_⟩
  rw [closeHandler, if_neg (by simp : ¬(some (0 : Int) ≠ some 0)),
    if_neg (stringify_ne_empty v), parse_stringify]

/-- C7: for every sequence of stream events, the stdout buffer at the close
event is the concatenation of the stdout chunks in arrival order and the
stderr buffer is the concatenation of the stderr chunks, each independent
of the other stream's chunks. -/
theorem c7_buffers_accumulate_independently (evs : List StreamEvent) :
    runEvents evs = (concatStrings (evs.filterMap stdoutChunk),
                     concatStrings (evs.filterMap stderrChunk)) := by
  unfold runEvents
  rw [foldl_stepEvent]
  rfl

/-- C8: the listening port is `process.env.PORT`, with 3000 used when the
variable is unset or empty (falsy). -/
theorem c8_port_default :
    listenArg none = Sum.inr 3000 ∧ listenArg (some "") = Sum.inr 3000 ∧
      ∀ s : String, s ≠ "" → listenArg (some s) = Sum.inl s := by
  refine ⟨rfl, rfl, fun s hs => ?_⟩
  simp [listenArg, hs]

/-- Witness for C8 at PORT="8080". -/
theorem c8_witness : listenArg (some "8080") = Sum.inl "8080" :=
  c8_port_default.2.2 "8080" (by decide)

/-- C9: a `null` exit code (abnormal termination) takes the failure branch,
and only the exact exit code 0 can reach the success path. -/
theorem c9_null_code_fails (result_data error_data : String) :
    closeHandler none result_data error_data = ⟨500, processFailureBody error_data⟩ ∧
      ∀ code : Option Int, (closeHandler code result_data error_data).status = 200 →
        code = some 0 := by
  constructor
  · rw [closeHandler, if_pos (by simp : (none : Option Int) ≠ some 0)]
  · intro code h
    by_contra hne
    rw [closeHandler, if_pos hne] at h
    simp at h

/-- Witness for C9: null exit code with stderr "boom"; exit code 0 on
stdout "1" reaches status 200. -/
theorem c9_witness :
    closeHandler none "out" "boom" = ⟨500, processFailureBody "boom"⟩ ∧
      (some (0 : Int)) = some 0 :=
  ⟨(c9_null_code_fails "out" "boom").1, (c9_null_code_fails "1" "x").2 (some 0) (by rfl)⟩

/-- C10: a stdout buffer of just a newline is treated as non-empty (the
emptiness test is string truthiness, firing only on the exact empty
string), fails JSON parsing, and yields the 500 parse-failure payload. -/
theorem c10_whitespace_stdout_parse_failure :
    (∀ error_data, closeHandler (some 0) "\n" error_data = ⟨500, parseFailureBody⟩) ∧
      parse "\n" = none ∧ ("\n" : String) ≠ "" := by
  refine ⟨fun error_data => ?_, rfl, by decide⟩
  rw [closeHandler, if_neg (by simp : ¬(some (0 : Int) ≠ some 0)),
    if_neg (by decide : ("\n" : String) ≠ ""), show parse "\n" = none from rfl]
